import Mathlib

/-!
# BuildForge server — verification of the build-orchestration core

Shallow embedding of `src/server/src/main.rs` (the BuildForge server):
the data model, the Kahn topological sort driving the pipeline executor,
the executor itself, the data-store mutation handlers, the action runner,
and the persistence round trip.  Rust `HashMap`s over node-id keys are
modelled as deduplicated key lists plus update functions; `HashMap`
iteration order (unspecified in Rust) is fixed to key-insertion order,
which only affects the tie-break among simultaneously ready nodes.
Machine integers that never overflow in the modelled code are `Nat`.
Process execution, the network writer and the file system are explicit
oracles / explicit state, so every observable effect is a value.
-/

/-- A JSON value, standing for `serde_json::Value` (floats are not needed
by any modelled structure and are omitted). -/
inductive Json where
  | null : Json
  | bool : Bool → Json
  | num : Int → Json
  | str : String → Json
  | arr : List Json → Json
  | obj : List (String × Json) → Json

/-- `BuildNode` from main.rs: one step of a build graph. -/
structure BuildNode where
  id : String
  node_type : String
  name : String
  config : Json

/-- `BuildEdge` from main.rs: target depends on source. -/
structure BuildEdge where
  id : String
  source : String
  target : String

/-- `StoredWorkflow` from main.rs. -/
structure StoredWorkflow where
  id : String
  name : String
  repo_id : Option String
  nodes : List Json
  connections : List Json
  next_version : String
  created_at : String
  updated_at : String

/-- `StoredAction` from main.rs. -/
structure StoredAction where
  id : String
  name : String
  description : String
  script : String
  inputs : List Json
  outputs : List Json
  created_at : String
  updated_at : String

/-- `StoredRepo` from main.rs. -/
structure StoredRepo where
  id : String
  path : String
  owner : Option String
  repo : Option String
  default_branch : String
  cloned_at : Option String

/-- `BuildRecord` from main.rs. -/
structure BuildRecord where
  id : String
  workflow_id : String
  status : String
  started_at : String
  finished_at : Option String
  duration_ms : Option Nat
  logs : List String

/-- `ServerData` from main.rs: the aggregate root held by the data store. -/
structure ServerData where
  workflows : List StoredWorkflow
  actions : List StoredAction
  repos : List StoredRepo
  build_history : List BuildRecord

/-- `BuildStartPayload` from main.rs. -/
structure BuildStartPayload where
  build_id : String
  project_name : String
  version : String
  nodes : List BuildNode
  edges : List BuildEdge
  github_token : Option String

/-- `RunActionPayload` from main.rs; the `HashMap<String,String>` of inputs
is modelled as an association list in iteration order. -/
structure RunActionPayload where
  action_id : String
  inputs : List (String × String)

/-- Outbound `ServerMessage` variants actually written back to a client by
`handle_connection`. -/
inductive OutMsg where
  | Pong : OutMsg
  | SyncResponse : List StoredWorkflow → List StoredAction → List StoredRepo → OutMsg
  | ActionResult : String → Bool → String → OutMsg
  | Error : String → OutMsg

/-! ## Topological sort (`topological_sort`, main.rs lines 567–621)

The Rust code builds `in_degree : HashMap<&str, usize>` and
`adjacency : HashMap<&str, Vec<&str>>` keyed by the node ids, counts every
edge whose *target* is a node id into `in_degree` (regardless of its
source), records every edge whose *source* is a node id into `adjacency`
(regardless of its target), seeds a queue with the zero-in-degree keys and
runs Kahn's algorithm.  The key set is `(nodes.map id).dedup`; the map
values are update functions. -/

/-- The ids of a node list (`nodes.iter().map(|n| &n.id)`). -/
def nodeIds (nodes : List BuildNode) : List String :=
  nodes.map (fun n => n.id)

/-- The key set of the Rust `HashMap`s: node ids, one entry per id. -/
def keysOf (nodes : List BuildNode) : List String :=
  (nodeIds nodes).dedup

/-- `adjacency` after the edge loop: for a node id `s`, the targets of all
edges with source `s`, in edge order (dangling targets included, exactly as
in the Rust code). -/
def adjOf (edges : List BuildEdge) (s : String) : List String :=
  (edges.filter (fun e => decide (e.source = s))).map (fun e => e.target)

/-- `in_degree` after the edge loop: for a node id `t`, the number of edges
with target `t` (edges with a dangling source included, exactly as in the
Rust code, which only checks that the *target* is a key). -/
def indeg0 (edges : List BuildEdge) (t : String) : Nat :=
  (edges.filter (fun e => decide (e.target = t))).length

/-- One pass over the adjacency list of a just-popped node: for each target
that is a map key, decrement its in-degree and enqueue it if the decrement
reaches zero (`*degree -= 1; if *degree == 0 { queue.push_back(target) }`).
Returns the updated degree map and the newly enqueued ids in order. -/
def processTargets (keys : List String) (deg : String → Nat) :
    List String → (String → Nat) × List String
  | [] => (deg, [])
  | t :: ts =>
    if t ∈ keys then
      let d := deg t
      let r := processTargets keys (fun x => if x = t then d - 1 else deg x) ts
      if d = 1 then (r.1, t :: r.2) else r
    else
      processTargets keys deg ts

/-- The Kahn loop (`while let Some(id) = queue.pop_front()`), with a fuel
bound for structural recursion.  The fuel passed by `topological_sort` is
strictly larger than `Σ in-degrees + |queue|`, which decreases at every
iteration, so the loop always drains the queue exactly as the Rust loop
does. -/
def kahnLoop (keys : List String) (adj : String → List String) :
    Nat → (String → Nat) → List String → List String → List String
  | 0, _, _, sorted => sorted
  | fuel + 1, deg, queue, sorted =>
    match queue with
    | [] => sorted
    | id :: rest =>
      let r := processTargets keys deg (adj id)
      kahnLoop keys adj fuel r.1 (rest ++ r.2) (sorted ++ [id])

/-- `topological_sort` from main.rs: Kahn's algorithm; if the output is
shorter than the node list a cycle (or an unresolvable in-edge) exists and
the build fails; otherwise the sorted ids are mapped back to nodes through
`node_map`, in which a later node with a duplicate id overwrites an earlier
one (modelled by `find?` on the reversed node list). -/
def topological_sort (nodes : List BuildNode) (edges : List BuildEdge) :
    Except String (List BuildNode) :=
  let keys := keysOf nodes
  let deg := indeg0 edges
  let queue := keys.filter (fun k => decide (deg k = 0))
  let sorted_ids := kahnLoop keys (adjOf edges) (nodes.length + edges.length + 1) deg queue []
  if sorted_ids.length = nodes.length then
    .ok (sorted_ids.filterMap (fun i => nodes.reverse.find? (fun n => decide (n.id = i))))
  else
    .error "Circular dependency detected in build nodes"

/-! ## Pipeline executor (`execute_build`, main.rs lines 414–512)

Child-process execution and glob resolution are oracles; the executor's
observable behaviour is its `Result` and the sequence of nodes whose
execution it starts.  `execute_build` holds no writer handle: it writes no
message to any client (the computed per-node progress value and the
collected artifact / release data are dropped when the function returns). -/

/-- `serde_json::Value::get(key)` on the node config. -/
def Json.get (j : Json) (key : String) : Option Json :=
  match j with
  | .obj fields => fields.lookup key
  | _ => none

/-- `Value::as_str`. -/
def Json.asStr : Json → Option String
  | .str s => some s
  | _ => none

/-- Outcomes of the child processes and glob resolution used by
`execute_build`, supplied as oracles. -/
structure ExecEnv where
  /-- `run_command(command, cwd, build_id)`: fails on non-zero exit. -/
  runCommand : String → String → Except String Unit
  /-- build-node `run_script(script, shell, workdir, build_id)` outcome. -/
  runScriptNode : String → String → Except String Unit
  /-- `glob::glob(pattern)`: the matched paths, or a pattern error. -/
  globMatches : String → Except String (List String)

/-- One iteration of the executor's node loop, dispatching on
`node.node_type`; returns the updated artifact list.  The `release` branch
only formats and logs (the `create_github_release` call is commented out in
the source and `release_url` is never set), so it cannot fail. -/
def runNode (env : ExecEnv) (workdir : String) (token : Option String)
    (artifacts : List String) (node : BuildNode) : Except String (List String) :=
  match node.node_type with
  | "command" =>
    let command := ((node.config.get "command").bind Json.asStr).getD "echo 'No command specified'"
    let cwd := match (node.config.get "cwd").bind Json.asStr with
      | some s => s.replace "$PROJECT_ROOT" workdir
      | none => workdir
    (env.runCommand command cwd).map (fun _ => artifacts)
  | "script" =>
    let script := ((node.config.get "script").bind Json.asStr).getD "echo 'No script'"
    let shell := ((node.config.get "shell").bind Json.asStr).getD "bash"
    (env.runScriptNode script shell).map (fun _ => artifacts)
  | "artifact" =>
    let pat := ((node.config.get "path").bind Json.asStr).getD "dist/*"
    (env.globMatches (workdir ++ "/" ++ pat)).map (fun paths => artifacts ++ paths)
  | "release" =>
    -- with a token: formats tag/title/body and logs; without: warns.  Never fails.
    let _ := token
    .ok artifacts
  | _ =>
    -- unknown node type: warn and continue
    .ok artifacts

/-- The executor's node loop: runs nodes in order, aborting on the first
failure; returns the result and the ids of the nodes whose execution
started (a failing node did start). -/
def execNodes (env : ExecEnv) (workdir : String) (token : Option String) :
    List BuildNode → List String → Except String Unit × List String
  | [], _ => (.ok (), [])
  | n :: rest, artifacts =>
    match runNode env workdir token artifacts n with
    | .error e => (.error e, [n.id])
    | .ok artifacts' =>
      let r := execNodes env workdir token rest artifacts'
      (r.1, n.id :: r.2)

/-- `execute_build`: topologically sorts the graph (`?` propagates the
cycle error before any node runs), then executes the nodes in order. -/
def execute_build (env : ExecEnv) (workdir : String) (payload : BuildStartPayload)
    (github_token : Option String) : Except String Unit × List String :=
  match topological_sort payload.nodes payload.edges with
  | .error e => (.error e, [])
  | .ok sorted_nodes => execNodes env workdir github_token sorted_nodes []

/-! ## Build-node script runner (`run_script`, main.rs lines 539–565)

The script body is written to `workdir/.buildforge-{build_id}.sh`; the
interpreter is spawned with `.spawn()?` (the `?` propagates a spawn failure
immediately), its exit is collected into `result`, the temporary file is
removed, and only then is `result?` propagated.  File-system effects are
recorded as a trace. -/

/-- A completed file-system operation of the script runner. -/
inductive FsOp where
  | wrote : String → FsOp
  | removed : String → FsOp
deriving DecidableEq

/-- Outcome of `Command::new(shell).arg(path)....spawn()?.wait_with_output()`. -/
inductive SpawnOutcome where
  | spawnFail : String → SpawnOutcome
  | waitFail : String → SpawnOutcome
  | finished : Bool → String → String → SpawnOutcome
deriving DecidableEq

/-- Oracles for the script runner's I/O: the `tokio::fs::write` outcome and
the child-process outcome. -/
structure ScriptEnv where
  write : Except String Unit
  run : SpawnOutcome

/-- Build-node `run_script` (the four-argument variant). -/
def run_script (env : ScriptEnv) (script shell workdir build_id : String) :
    Except String Unit × List FsOp :=
  let script_path := workdir ++ "/.buildforge-" ++ build_id ++ ".sh"
  let _ := script
  let _ := shell
  match env.write with
  | .error e => (.error e, [])
  | .ok _ =>
    match env.run with
    | .spawnFail e => (.error e, [.wrote script_path])
    | .waitFail e => (.error e, [.wrote script_path, .removed script_path])
    | .finished success _ stderr =>
      if success then (.ok (), [.wrote script_path, .removed script_path])
      else (.error ("Script failed: " ++ stderr), [.wrote script_path, .removed script_path])

/-! ## Data-store mutations (`handle_connection`, main.rs lines 281–355) -/

/-- `iter_mut().find(|x| x.id == new.id)` replace, else `push` — the upsert
shared by `SaveWorkflow` and `SaveAction`. -/
def upsertById {α : Type} (getId : α → String) : List α → α → List α
  | [], w => [w]
  | x :: rest, w =>
    if getId x = getId w then w :: rest else x :: upsertById getId rest w

/-- `SaveWorkflow` handler mutation. -/
def saveWorkflow (d : ServerData) (w : StoredWorkflow) : ServerData :=
  { d with workflows := upsertById (fun x => x.id) d.workflows w }

/-- `SaveAction` handler mutation. -/
def saveAction (d : ServerData) (a : StoredAction) : ServerData :=
  { d with actions := upsertById (fun x => x.id) d.actions a }

/-- `DeleteWorkflow` handler mutation (`retain(|w| w.id != id)`). -/
def deleteWorkflow (d : ServerData) (i : String) : ServerData :=
  { d with workflows := d.workflows.filter (fun w => decide (w.id ≠ i)) }

/-- `DeleteAction` handler mutation. -/
def deleteAction (d : ServerData) (i : String) : ServerData :=
  { d with actions := d.actions.filter (fun a => decide (a.id ≠ i)) }

/-- The history append performed by the `BuildStart` task after the build:
`started_at` and `finished_at` are two separate `Utc::now()` readings taken
after the build finished. -/
def recordBuild (d : ServerData) (build_id started finished : String) : ServerData :=
  { d with build_history := d.build_history ++
      [{ id := build_id, workflow_id := "", status := "completed",
         started_at := started, finished_at := some finished,
         duration_ms := none, logs := [] }] }

/-- The whole spawned `BuildStart` task: run the build (an error is only
logged), then append the history record. -/
def buildTask (env : ExecEnv) (workdir : String) (payload : BuildStartPayload)
    (token : Option String) (d : ServerData) (started finished : String) : ServerData :=
  match (execute_build env workdir payload token).1 with
  | .error _ => recordBuild d payload.build_id started finished
  | .ok _ => recordBuild d payload.build_id started finished

/-- Ids are unique within each collection of the aggregate. -/
def UniqueIds (d : ServerData) : Prop :=
  (d.workflows.map (fun w => w.id)).Nodup ∧
  (d.actions.map (fun a => a.id)).Nodup ∧
  (d.repos.map (fun r => r.id)).Nodup ∧
  (d.build_history.map (fun b => b.id)).Nodup

/-! ## Action runner (`RunAction` handler, main.rs lines 356–384) -/

/-- Outcome oracle for the two-argument `run_script` (the action runner's
`bash -c` execution): combined output on success, combined output as the
error detail on non-zero exit. -/
structure ActionEnv where
  run : String → Except String String

/-- The input-export prefix loop: each input is prepended as an `export`
line in iteration order. -/
def buildActionScript (script : String) (inputs : List (String × String)) : String :=
  inputs.foldl (fun acc kv => "export " ++ kv.1 ++ "=\"" ++ kv.2 ++ "\"\n" ++ acc) script

/-- The `RunAction` handler: returns the replies written to the client and
the scripts handed to the process spawner. -/
def handleRunAction (d : ServerData) (env : ActionEnv) (p : RunActionPayload) :
    List OutMsg × List String :=
  match d.actions.find? (fun a => decide (a.id = p.action_id)) with
  | some action =>
    let script := buildActionScript action.script p.inputs
    match env.run script with
    | .ok out => ([.ActionResult p.action_id true out], [script])
    | .error e => ([.ActionResult p.action_id false e], [script])
  | none => ([.Error ("Action not found: " ++ p.action_id)], [])

/-! ## Persistence (`ServerData::load` / `ServerData::save`, main.rs 96–117)

`save` serializes the aggregate with `serde_json::to_string_pretty` and
replaces `data_dir/server-data.json` wholesale; `load` reads and parses the
same path if it exists, and starts fresh otherwise.  The file system is a
map from path to parsed content: the external `serde_json` string rendering
and parsing are treated as a bijection between a JSON value and its text,
so file contents are modelled at the JSON level.  The encoders below follow
the serde derive layout (an object with one entry per field, `Option` as
`null`-or-value); the decoders look fields up by name as serde does. -/

/-- serde encoding of an `Option<String>` field. -/
def Json.optStr : Option String → Json
  | some s => .str s
  | none => .null

/-- Decode a string field. -/
def Json.decodeStr : Json → Option String
  | .str s => some s
  | _ => none

/-- Decode an `Option<String>` field. -/
def Json.decodeOptStr : Json → Option (Option String)
  | .null => some none
  | .str s => some (some s)
  | _ => none

/-- serde encoding of an `Option<u64>` field. -/
def Json.optNat : Option Nat → Json
  | some n => .num (n : Int)
  | none => .null

/-- Decode an `Option<u64>` field (a negative number is a parse error). -/
def Json.decodeOptNat : Json → Option (Option Nat)
  | .null => some none
  | .num (Int.ofNat n) => some (some n)
  | _ => none

/-- Decode a `Vec<serde_json::Value>` field. -/
def Json.decodeArr : Json → Option (List Json)
  | .arr l => some l
  | _ => none

/-- Decode a `Vec<String>` field. -/
def Json.decodeStrArr : Json → Option (List String)
  | .arr l => l.mapM Json.decodeStr
  | _ => none

/-- serde layout of a `StoredWorkflow`. -/
def StoredWorkflow.toJson (w : StoredWorkflow) : Json :=
  .obj [("id", .str w.id), ("name", .str w.name), ("repo_id", Json.optStr w.repo_id),
        ("nodes", .arr w.nodes), ("connections", .arr w.connections),
        ("next_version", .str w.next_version), ("created_at", .str w.created_at),
        ("updated_at", .str w.updated_at)]

/-- serde decoding of a `StoredWorkflow`. -/
def StoredWorkflow.fromJson (j : Json) : Option StoredWorkflow :=
  match j with
  | .obj f => do
    let id ← (f.lookup "id").bind Json.decodeStr
    let name ← (f.lookup "name").bind Json.decodeStr
    let repo_id ← (f.lookup "repo_id").bind Json.decodeOptStr
    let nodes ← (f.lookup "nodes").bind Json.decodeArr
    let connections ← (f.lookup "connections").bind Json.decodeArr
    let next_version ← (f.lookup "next_version").bind Json.decodeStr
    let created_at ← (f.lookup "created_at").bind Json.decodeStr
    let updated_at ← (f.lookup "updated_at").bind Json.decodeStr
    pure { id := id, name := name, repo_id := repo_id, nodes := nodes,
           connections := connections, next_version := next_version,
           created_at := created_at, updated_at := updated_at }
  | _ => none

/-- serde layout of a `StoredAction`. -/
def StoredAction.toJson (a : StoredAction) : Json :=
  .obj [("id", .str a.id), ("name", .str a.name), ("description", .str a.description),
        ("script", .str a.script), ("inputs", .arr a.inputs), ("outputs", .arr a.outputs),
        ("created_at", .str a.created_at), ("updated_at", .str a.updated_at)]

/-- serde decoding of a `StoredAction`. -/
def StoredAction.fromJson (j : Json) : Option StoredAction :=
  match j with
  | .obj f => do
    let id ← (f.lookup "id").bind Json.decodeStr
    let name ← (f.lookup "name").bind Json.decodeStr
    let description ← (f.lookup "description").bind Json.decodeStr
    let script ← (f.lookup "script").bind Json.decodeStr
    let inputs ← (f.lookup "inputs").bind Json.decodeArr
    let outputs ← (f.lookup "outputs").bind Json.decodeArr
    let created_at ← (f.lookup "created_at").bind Json.decodeStr
    let updated_at ← (f.lookup "updated_at").bind Json.decodeStr
    pure { id := id, name := name, description := description, script := script,
           inputs := inputs, outputs := outputs,
           created_at := created_at, updated_at := updated_at }
  | _ => none

/-- serde layout of a `StoredRepo`. -/
def StoredRepo.toJson (r : StoredRepo) : Json :=
  .obj [("id", .str r.id), ("path", .str r.path), ("owner", Json.optStr r.owner),
        ("repo", Json.optStr r.repo), ("default_branch", .str r.default_branch),
        ("cloned_at", Json.optStr r.cloned_at)]

/-- serde decoding of a `StoredRepo`. -/
def StoredRepo.fromJson (j : Json) : Option StoredRepo :=
  match j with
  | .obj f => do
    let id ← (f.lookup "id").bind Json.decodeStr
    let path ← (f.lookup "path").bind Json.decodeStr
    let owner ← (f.lookup "owner").bind Json.decodeOptStr
    let repo ← (f.lookup "repo").bind Json.decodeOptStr
    let default_branch ← (f.lookup "default_branch").bind Json.decodeStr
    let cloned_at ← (f.lookup "cloned_at").bind Json.decodeOptStr
    pure { id := id, path := path, owner := owner, repo := repo,
           default_branch := default_branch, cloned_at := cloned_at }
  | _ => none

/-- serde layout of a `BuildRecord`. -/
def BuildRecord.toJson (b : BuildRecord) : Json :=
  .obj [("id", .str b.id), ("workflow_id", .str b.workflow_id),
        ("status", .str b.status), ("started_at", .str b.started_at),
        ("finished_at", Json.optStr b.finished_at),
        ("duration_ms", Json.optNat b.duration_ms),
        ("logs", .arr (b.logs.map Json.str))]

/-- serde decoding of a `BuildRecord`. -/
def BuildRecord.fromJson (j : Json) : Option BuildRecord :=
  match j with
  | .obj f => do
    let id ← (f.lookup "id").bind Json.decodeStr
    let workflow_id ← (f.lookup "workflow_id").bind Json.decodeStr
    let status ← (f.lookup "status").bind Json.decodeStr
    let started_at ← (f.lookup "started_at").bind Json.decodeStr
    let finished_at ← (f.lookup "finished_at").bind Json.decodeOptStr
    let duration_ms ← (f.lookup "duration_ms").bind Json.decodeOptNat
    let logs ← (f.lookup "logs").bind Json.decodeStrArr
    pure { id := id, workflow_id := workflow_id, status := status,
           started_at := started_at, finished_at := finished_at,
           duration_ms := duration_ms, logs := logs }
  | _ => none

/-- serde layout of the `ServerData` aggregate. -/
def ServerData.toJson (d : ServerData) : Json :=
  .obj [("workflows", .arr (d.workflows.map StoredWorkflow.toJson)),
        ("actions", .arr (d.actions.map StoredAction.toJson)),
        ("repos", .arr (d.repos.map StoredRepo.toJson)),
        ("build_history", .arr (d.build_history.map BuildRecord.toJson))]

/-- serde decoding of the `ServerData` aggregate. -/
def ServerData.fromJson (j : Json) : Option ServerData :=
  match j with
  | .obj f => do
    let workflows ← ((f.lookup "workflows").bind Json.decodeArr).bind
      (fun l => l.mapM StoredWorkflow.fromJson)
    let actions ← ((f.lookup "actions").bind Json.decodeArr).bind
      (fun l => l.mapM StoredAction.fromJson)
    let repos ← ((f.lookup "repos").bind Json.decodeArr).bind
      (fun l => l.mapM StoredRepo.fromJson)
    let build_history ← ((f.lookup "build_history").bind Json.decodeArr).bind
      (fun l => l.mapM BuildRecord.fromJson)
    pure { workflows := workflows, actions := actions, repos := repos,
           build_history := build_history }
  | _ => none

/-- The single data file, `data_dir.join("server-data.json")`. -/
def dataFilePath (data_dir : String) : String :=
  data_dir ++ "/server-data.json"

/-- `ServerData::save`: whole-file replace of the data file. -/
def ServerData.save (d : ServerData) (data_dir : String) (fs : String → Option Json) :
    String → Option Json :=
  fun p => if p = dataFilePath data_dir then some (ServerData.toJson d) else fs p

/-- `ServerData::load`: parse the data file if it exists, start fresh
otherwise (a parse failure is an error, surfaced by `?` in the source). -/
def ServerData.load (data_dir : String) (fs : String → Option Json) :
    Except String ServerData :=
  match fs (dataFilePath data_dir) with
  | some j =>
    match ServerData.fromJson j with
    | some d => .ok d
    | none => .error "failed to parse server-data.json"
  | none => .ok { workflows := [], actions := [], repos := [], build_history := [] }

/-- The sorted-id list computed inside `topological_sort` (the value of
its `sorted_ids` local). -/
def kahnSortedIds (nodes : List BuildNode) (edges : List BuildEdge) : List String :=
  kahnLoop (keysOf nodes) (adjOf edges) (nodes.length + edges.length + 1) (indeg0 edges)
    ((keysOf nodes).filter (fun k => decide (indeg0 edges k = 0))) []

/-! ## Graph-theoretic predicates and the Kahn loop invariant -/

/-- There is an edge from `s` to `t` in the edge list. -/
def isEdge (edges : List BuildEdge) (s t : String) : Prop :=
  ∃ e ∈ edges, e.source = s ∧ e.target = t

/-- The build graph contains a (directed) cycle among its nodes: a nonempty
closed edge-chain `v → p₀ → … → pₙ → v` all of whose vertices are node ids. -/
def HasCycle (nodes : List BuildNode) (edges : List BuildEdge) : Prop :=
  ∃ (v : String) (p : List String),
    (∀ x ∈ v :: p, x ∈ nodeIds nodes) ∧
    List.Chain (isEdge edges) v p ∧
    isEdge edges ((v :: p).getLast (List.cons_ne_nil v p)) v

/-- Number of edges into `t` whose source has already been emitted
(is in `S`). -/
def cnt (edges : List BuildEdge) (S : List String) (t : String) : Nat :=
  (edges.filter (fun e => decide (e.target = t ∧ e.source ∈ S))).length

/-- Number of edges from `s` to `t`. -/
def edgeCnt (edges : List BuildEdge) (s t : String) : Nat :=
  (edges.filter (fun e => decide (e.source = s ∧ e.target = t))).length

/-- The Kahn-loop invariant over emitted list `S`, queue `Q` and current
in-degree map `deg`:  emitted and queued ids are distinct node ids; the
degree of a key is its initial in-degree minus its already-satisfied
in-edges; emitted or queued ids have all in-edges satisfied; and the
emitted list is already topologically consistent. -/
def KahnInv (nodes : List BuildNode) (edges : List BuildEdge)
    (deg : String → Nat) (Q S : List String) : Prop :=
  (S ++ Q).Nodup ∧
  (∀ x ∈ S ++ Q, x ∈ keysOf nodes) ∧
  (∀ x ∈ keysOf nodes, deg x = indeg0 edges x - cnt edges S x) ∧
  (∀ x ∈ S ++ Q, indeg0 edges x = cnt edges S x) ∧
  (∀ e ∈ edges, e.target ∈ S → e.source ∈ S ∧ [e.source, e.target].Sublist S)

/-! ## Concrete inputs used by the witnesses and counterexamples -/

/-- Node `A` of the witness graphs. -/
def nodeA : BuildNode :=
  { id := "A", node_type := "command", name := "build",
    config := Json.obj [("command", Json.str "echo 1")] }

/-- Node `B` of the witness graphs. -/
def nodeB : BuildNode :=
  { id := "B", node_type := "command", name := "test",
    config := Json.obj [("command", Json.str "echo 2")] }

/-- Edge `A → B`. -/
def edgeAB : BuildEdge := { id := "e1", source := "A", target := "B" }

/-- Edge `B → A`. -/
def edgeBA : BuildEdge := { id := "e2", source := "B", target := "A" }

/-- Edge `A → X`, whose target resolves to no node. -/
def edgeAX : BuildEdge := { id := "e3", source := "A", target := "X" }

/-- Edge `X → A`, whose source resolves to no node. -/
def edgeXA : BuildEdge := { id := "e4", source := "X", target := "A" }

/-- An execution environment in which every process succeeds and globs
match nothing. -/
def envAllOk : ExecEnv :=
  { runCommand := fun _ _ => .ok ()
    runScriptNode := fun _ _ => .ok ()
    globMatches := fun _ => .ok [] }

/-- Payload of the two-node acyclic witness build. -/
def linePayload : BuildStartPayload :=
  { build_id := "b1", project_name := "proj", version := "1.0.0",
    nodes := [nodeA, nodeB], edges := [edgeAB], github_token := none }

/-- Payload of the cyclic witness build. -/
def cyclePayload : BuildStartPayload :=
  { build_id := "b2", project_name := "proj", version := "1.0.0",
    nodes := [nodeA, nodeB], edges := [edgeAB, edgeBA], github_token := none }

/-- Payload of a build with a dangling-target edge. -/
def danglingPayload : BuildStartPayload :=
  { build_id := "b3", project_name := "proj", version := "1.0.0",
    nodes := [nodeA], edges := [edgeAX], github_token := none }

/-- A script-runner environment whose interpreter fails to start. -/
def spawnFailEnv : ScriptEnv :=
  { write := .ok (), run := .spawnFail "No such file or directory (os error 2)" }

/-- A script-runner environment whose script exits non-zero. -/
def exitFailEnv : ScriptEnv :=
  { write := .ok (), run := .finished false "" "boom" }

/-- A sample stored workflow. -/
def sampleWorkflow : StoredWorkflow :=
  { id := "w1", name := "Release", repo_id := none, nodes := [], connections := [],
    next_version := "1.0.1", created_at := "t0", updated_at := "t0" }

/-- A different workflow with the same id. -/
def sampleWorkflow' : StoredWorkflow :=
  { id := "w1", name := "Release v2", repo_id := some "r1", nodes := [], connections := [],
    next_version := "1.0.2", created_at := "t0", updated_at := "t1" }

/-- A sample stored action. -/
def sampleAction : StoredAction :=
  { id := "a1", name := "lint", description := "run linter", script := "echo lint",
    inputs := [], outputs := [], created_at := "t0", updated_at := "t0" }

/-- A different action with the same id. -/
def sampleAction' : StoredAction :=
  { id := "a1", name := "lint2", description := "run linter", script := "echo lint2",
    inputs := [], outputs := [], created_at := "t0", updated_at := "t1" }

/-- A store holding one workflow and one action. -/
def sampleData : ServerData :=
  { workflows := [sampleWorkflow], actions := [sampleAction], repos := [],
    build_history := [] }

/-- A store whose history already holds a record with id `b`. -/
def histData : ServerData :=
  { workflows := [], actions := [], repos := [],
    build_history := [{ id := "b", workflow_id := "", status := "completed",
                        started_at := "t0", finished_at := some "t1",
                        duration_ms := none, logs := [] }] }

/-- An action-runner environment echoing the script back as output. -/
def echoActionEnv : ActionEnv := { run := fun s => .ok s }

/-- A workflow whose id is not in `sampleData`. -/
def freshWorkflow : StoredWorkflow :=
  { id := "w2", name := "Deploy", repo_id := none, nodes := [], connections := [],
    next_version := "0.1.0", created_at := "t2", updated_at := "t2" }

/-- An action whose id is not in `sampleData`. -/
def freshAction : StoredAction :=
  { id := "a2", name := "fmt", description := "format", script := "echo fmt",
    inputs := [], outputs := [], created_at := "t2", updated_at := "t2" }

/-- A `RunAction` payload naming an absent action id. -/
def missingRunPayload : RunActionPayload := { action_id := "zzz", inputs := [] }

/-- A `RunAction` payload naming the stored action `a1`. -/
def lintRunPayload : RunActionPayload := { action_id := "a1", inputs := [] }

/-! # Theorems

Helper lemmas first, then one named theorem per claim (with witnesses and
counterexamples where required). -/

/-! ## Persistence round trip -/

theorem mapM_loop_roundtrip {α β : Type} (enc : α → β) (dec : β → Option α)
    (h : ∀ x, dec (enc x) = some x) (l : List α) : ∀ acc : List α,
    List.mapM.loop dec (l.map enc) acc = some (acc.reverse ++ l) := by
  induction l with
  | nil => intro acc; simp [List.mapM.loop]
  | cons x xs ih => intro acc; simp [List.mapM.loop, h, ih]

theorem mapM_map_roundtrip {α β : Type} (enc : α → β) (dec : β → Option α)
    (h : ∀ x, dec (enc x) = some x) (l : List α) :
    (l.map enc).mapM dec = some l := by
  simpa [List.mapM] using mapM_loop_roundtrip enc dec h l []

theorem storedWorkflow_roundtrip (w : StoredWorkflow) :
    StoredWorkflow.fromJson (StoredWorkflow.toJson w) = some w := by
  cases w with
  | mk id name repo_id nodes connections next_version created_at updated_at =>
    cases repo_id <;>
      simp [StoredWorkflow.toJson, StoredWorkflow.fromJson, List.lookup,
        Json.decodeStr, Json.decodeOptStr, Json.decodeArr, Json.optStr]

theorem storedAction_roundtrip (a : StoredAction) :
    StoredAction.fromJson (StoredAction.toJson a) = some a := by
  cases a with
  | mk id name description script inputs outputs created_at updated_at =>
    simp [StoredAction.toJson, StoredAction.fromJson, List.lookup,
      Json.decodeStr, Json.decodeArr]

theorem storedRepo_roundtrip (r : StoredRepo) :
    StoredRepo.fromJson (StoredRepo.toJson r) = some r := by
  cases r with
  | mk id path owner repo default_branch cloned_at =>
    cases owner <;> cases repo <;> cases cloned_at <;>
      simp [StoredRepo.toJson, StoredRepo.fromJson, List.lookup,
        Json.decodeStr, Json.decodeOptStr, Json.optStr]

theorem Json.decodeOptNat_optNat (o : Option Nat) :
    Json.decodeOptNat (Json.optNat o) = some o := by
  cases o <;> rfl

theorem buildRecord_roundtrip (b : BuildRecord) :
    BuildRecord.fromJson (BuildRecord.toJson b) = some b := by
  cases b with
  | mk id workflow_id status started_at finished_at duration_ms logs =>
    cases finished_at <;>
      simp [BuildRecord.toJson, BuildRecord.fromJson, List.lookup,
        Json.decodeStr, Json.decodeOptStr, Json.decodeOptNat_optNat, Json.decodeStrArr,
        Json.optStr,
        mapM_loop_roundtrip Json.str Json.decodeStr (fun _ => rfl)]

theorem serverData_roundtrip (d : ServerData) :
    ServerData.fromJson (ServerData.toJson d) = some d := by
  cases d with
  | mk workflows actions repos build_history =>
    simp [ServerData.toJson, ServerData.fromJson, List.lookup, Json.decodeArr,
      mapM_loop_roundtrip StoredWorkflow.toJson StoredWorkflow.fromJson storedWorkflow_roundtrip,
      mapM_loop_roundtrip StoredAction.toJson StoredAction.fromJson storedAction_roundtrip,
      mapM_loop_roundtrip StoredRepo.toJson StoredRepo.fromJson storedRepo_roundtrip,
      mapM_loop_roundtrip BuildRecord.toJson BuildRecord.fromJson buildRecord_roundtrip]

/-- C5: saving the aggregate to the data directory and loading from that
directory reproduces the aggregate exactly — in particular the workflows,
actions, repos and build-history collections have the same id sets and
equal per-id contents. -/
theorem C5_save_load_roundtrip (d : ServerData) (data_dir : String)
    (fs : String → Option Json) :
    ServerData.load data_dir (ServerData.save d data_dir fs) = .ok d := by
  simp [ServerData.load, ServerData.save, serverData_roundtrip]

/-! ## Upsert and store-mutation lemmas -/

theorem upsert_absent {α : Type} (getId : α → String) (l : List α) (w : α)
    (h : ∀ x ∈ l, getId x ≠ getId w) :
    upsertById getId l w = l ++ [w] := by
  induction l with
  | nil => rfl
  | cons y rest ih =>
    have hy : getId y ≠ getId w := h y (List.mem_cons_self y rest)
    simp [upsertById, hy, ih (fun x hx => h x (List.mem_cons_of_mem y hx))]

theorem upsert_present {α : Type} (getId : α → String) (l : List α) (w : α)
    (h : ∃ x ∈ l, getId x = getId w) :
    upsertById getId l w = l.set (l.findIdx (fun x => getId x == getId w)) w := by
  induction l with
  | nil => simp at h
  | cons y rest ih =>
    by_cases hy : getId y = getId w
    · simp [upsertById, hy, List.findIdx_cons]
    · obtain ⟨x, hx, hxid⟩ := h
      rcases List.mem_cons.mp hx with rfl | hx'
      · exact absurd hxid hy
      · have hb : (getId y == getId w) = false := beq_eq_false_iff_ne.mpr hy
        simp [upsertById, hy, List.findIdx_cons, hb, List.set_cons_succ, ih ⟨x, hx', hxid⟩]

theorem mem_map_upsert {α : Type} (getId : α → String) (l : List α) (w : α) (y : String)
    (h : y ∈ (upsertById getId l w).map getId) :
    y ∈ l.map getId ∨ y = getId w := by
  induction l with
  | nil => simp [upsertById] at h; simp [h]
  | cons z rest ih =>
    by_cases hz : getId z = getId w
    · simp [upsertById, hz] at h
      rcases h with h | h
      · right; exact h
      · left; simp [h]
    · simp [upsertById, hz] at h
      rcases h with h | h
      · left; simp [h]
      · rcases ih (by simpa using h) with h' | h'
        · left; simp at h' ⊢; right; exact h'
        · right; exact h'

theorem nodup_map_upsert {α : Type} (getId : α → String) (l : List α) (w : α)
    (h : (l.map getId).Nodup) :
    ((upsertById getId l w).map getId).Nodup := by
  induction l with
  | nil => simp [upsertById]
  | cons z rest ih =>
    rw [List.map_cons] at h
    have h1 := (List.nodup_cons.mp h).1
    have h2 := (List.nodup_cons.mp h).2
    by_cases hz : getId z = getId w
    · rw [show upsertById getId (z :: rest) w = w :: rest by simp [upsertById, hz]]
      rw [List.map_cons]
      exact List.nodup_cons.mpr ⟨hz ▸ h1, h2⟩
    · rw [show upsertById getId (z :: rest) w = z :: upsertById getId rest w by
        simp [upsertById, hz]]
      rw [List.map_cons]
      refine List.nodup_cons.mpr ⟨?_, ih h2⟩
      intro hmem
      rcases mem_map_upsert getId rest w (getId z) hmem with h' | h'
      · exact h1 h'
      · exact hz h'

/-- C4: for every store state and every `SaveWorkflow` / `SaveAction`
message, if the id is already present the handler replaces the (first)
matching entry in place and the collection size is unchanged; if the id is
absent the entry is appended and the size grows by exactly one. -/
theorem C4_save_is_upsert (d : ServerData) (w : StoredWorkflow) (a : StoredAction) :
    ((∃ x ∈ d.workflows, x.id = w.id) →
      (saveWorkflow d w).workflows =
        d.workflows.set (d.workflows.findIdx (fun x => x.id == w.id)) w ∧
      (saveWorkflow d w).workflows.length = d.workflows.length) ∧
    ((∀ x ∈ d.workflows, x.id ≠ w.id) →
      (saveWorkflow d w).workflows = d.workflows ++ [w] ∧
      (saveWorkflow d w).workflows.length = d.workflows.length + 1) ∧
    ((∃ x ∈ d.actions, x.id = a.id) →
      (saveAction d a).actions =
        d.actions.set (d.actions.findIdx (fun x => x.id == a.id)) a ∧
      (saveAction d a).actions.length = d.actions.length) ∧
    ((∀ x ∈ d.actions, x.id ≠ a.id) →
      (saveAction d a).actions = d.actions ++ [a] ∧
      (saveAction d a).actions.length = d.actions.length + 1) := by
  refine ⟨fun h => ?_, fun h => ?_, fun h => ?_, fun h => ?_⟩
  · have := upsert_present (fun x : StoredWorkflow => x.id) d.workflows w h
    exact ⟨this, by simp [saveWorkflow, this]⟩
  · have := upsert_absent (fun x : StoredWorkflow => x.id) d.workflows w h
    exact ⟨this, by simp [saveWorkflow, this]⟩
  · have := upsert_present (fun x : StoredAction => x.id) d.actions a h
    exact ⟨this, by simp [saveAction, this]⟩
  · have := upsert_absent (fun x : StoredAction => x.id) d.actions a h
    exact ⟨this, by simp [saveAction, this]⟩

/-- Witness for C4 at the concrete sample store: replacing `w1` / `a1`
keeps the sizes, saving fresh `w2` / `a2` appends. -/
theorem C4_witness :
    ((saveWorkflow sampleData sampleWorkflow').workflows = [sampleWorkflow'] ∧
      (saveWorkflow sampleData sampleWorkflow').workflows.length = 1) ∧
    ((saveWorkflow sampleData freshWorkflow).workflows = [sampleWorkflow, freshWorkflow] ∧
      (saveWorkflow sampleData freshWorkflow).workflows.length = 2) ∧
    ((saveAction sampleData sampleAction').actions = [sampleAction'] ∧
      (saveAction sampleData sampleAction').actions.length = 1) ∧
    ((saveAction sampleData freshAction).actions = [sampleAction, freshAction] ∧
      (saveAction sampleData freshAction).actions.length = 2) := by
  have h1 := (C4_save_is_upsert sampleData sampleWorkflow' sampleAction').1
    ⟨sampleWorkflow, by simp [sampleData], by decide⟩
  have h2 := ((C4_save_is_upsert sampleData freshWorkflow freshAction).2.1)
    (by intro x hx; simp [sampleData] at hx; subst hx; decide)
  have h3 := ((C4_save_is_upsert sampleData sampleWorkflow' sampleAction').2.2.1)
    ⟨sampleAction, by simp [sampleData], by decide⟩
  have h4 := ((C4_save_is_upsert sampleData freshWorkflow freshAction).2.2.2)
    (by intro x hx; simp [sampleData] at hx; subst hx; decide)
  refine ⟨⟨?_, h1.2⟩, ⟨?_, h2.2⟩, ⟨?_, h3.2⟩, ⟨?_, h4.2⟩⟩
  · rw [h1.1]; rfl
  · rw [h2.1]; rfl
  · rw [h3.1]; rfl
  · rw [h4.1]; rfl

/-- Counterexample to C10 as stated: from a store whose history holds one
record with id `b` (ids unique in every collection), the history append for
a second build with the same build id `b` — which nothing in the server
prevents — produces two history entries with the same id. -/
theorem C10_counterexample :
    UniqueIds histData ∧ ¬ UniqueIds (recordBuild histData "b" "t2" "t3") := by
  constructor
  · simp [UniqueIds, histData]
  · simp [UniqueIds, recordBuild, histData]

/-- C10 (amended): save and delete operations preserve per-collection id
uniqueness unconditionally, and the post-build history append preserves it
provided the appended build id is not already in the history. -/
theorem C10_amended (d : ServerData) (w : StoredWorkflow) (a : StoredAction)
    (i j bid t1 t2 : String) (h : UniqueIds d) :
    UniqueIds (saveWorkflow d w) ∧ UniqueIds (saveAction d a) ∧
    UniqueIds (deleteWorkflow d i) ∧ UniqueIds (deleteAction d j) ∧
    (bid ∉ d.build_history.map (fun b => b.id) →
      UniqueIds (recordBuild d bid t1 t2)) := by
  obtain ⟨hw, ha, hr, hb⟩ := h
  refine ⟨⟨nodup_map_upsert _ _ _ hw, ha, hr, hb⟩,
          ⟨hw, nodup_map_upsert _ _ _ ha, hr, hb⟩,
          ⟨?_, ha, hr, hb⟩, ⟨hw, ?_, hr, hb⟩, fun hfresh => ⟨hw, ha, hr, ?_⟩⟩
  · exact List.Nodup.sublist (List.Sublist.map _ (List.filter_sublist _)) hw
  · exact List.Nodup.sublist (List.Sublist.map _ (List.filter_sublist _)) ha
  · simp [recordBuild, List.nodup_append, hb, hfresh]

/-- Witness for the amended C10 at the concrete sample store. -/
theorem C10_witness :
    UniqueIds (saveWorkflow sampleData sampleWorkflow') ∧
    UniqueIds (recordBuild sampleData "b9" "t1" "t2") := by
  have h : UniqueIds sampleData := by simp [UniqueIds, sampleData]
  have h1 := C10_amended sampleData sampleWorkflow' sampleAction "x" "y" "b9" "t1" "t2" h
  exact ⟨h1.1, h1.2.2.2.2 (by simp [sampleData])⟩

/-- C6: whatever the build's outcome, the spawned `BuildStart` task appends
exactly one new `BuildRecord` to the history, and that record's
`finished_at` is set. -/
theorem C6_history_append (env : ExecEnv) (workdir : String) (payload : BuildStartPayload)
    (token : Option String) (d : ServerData) (t1 t2 : String) :
    (buildTask env workdir payload token d t1 t2).build_history =
      d.build_history ++
        [{ id := payload.build_id, workflow_id := "", status := "completed",
           started_at := t1, finished_at := some t2,
           duration_ms := none, logs := [] }] ∧
    (buildTask env workdir payload token d t1 t2).build_history.length =
      d.build_history.length + 1 ∧
    ((buildTask env workdir payload token d t1 t2).build_history.getLast?.map
        (fun b => b.finished_at)) = some (some t2) := by
  unfold buildTask
  cases (execute_build env workdir payload token).1 <;>
    simp [recordBuild, List.getLast?_concat]

/-- C8: a `RunAction` naming an absent action id is answered by an explicit
"Action not found" error mentioning that id, with no process spawned; a
`RunAction` naming a stored action runs its script (with the input exports
prepended) and is answered by an `ActionResult` carrying the success flag
and the runner's combined output. -/
theorem C8_run_action (d : ServerData) (env : ActionEnv) (p : RunActionPayload) :
    (p.action_id ∉ d.actions.map (fun a => a.id) →
      handleRunAction d env p =
        ([OutMsg.Error ("Action not found: " ++ p.action_id)], [])) ∧
    (∀ a, d.actions.find? (fun a => decide (a.id = p.action_id)) = some a →
      handleRunAction d env p =
        match env.run (buildActionScript a.script p.inputs) with
        | .ok out => ([OutMsg.ActionResult p.action_id true out],
                      [buildActionScript a.script p.inputs])
        | .error e => ([OutMsg.ActionResult p.action_id false e],
                       [buildActionScript a.script p.inputs])) := by
  constructor
  · intro h
    have hnone : d.actions.find? (fun a => decide (a.id = p.action_id)) = none := by
      rw [List.find?_eq_none]
      intro x hx
      simp only [decide_eq_true_eq]
      intro heq
      exact h (List.mem_map.mpr ⟨x, hx, heq⟩)
    simp [handleRunAction, hnone]
  · intro a ha
    simp only [handleRunAction, ha]

/-- Witness for C8 at the concrete sample store. -/
theorem C8_witness :
    handleRunAction sampleData echoActionEnv missingRunPayload =
      ([OutMsg.Error "Action not found: zzz"], []) ∧
    handleRunAction sampleData echoActionEnv lintRunPayload =
      ([OutMsg.ActionResult "a1" true "echo lint"], ["echo lint"]) := by
  constructor
  · exact (C8_run_action sampleData echoActionEnv missingRunPayload).1 (by decide)
  · exact (C8_run_action sampleData echoActionEnv lintRunPayload).2 sampleAction rfl

/-- Counterexample to C9 as stated: when the interpreter fails to start,
`.spawn()?` propagates the error before the cleanup line runs, so the
temporary script file is *not* removed on that path. -/
theorem C9_counterexample :
    (run_script spawnFailEnv "echo hi" "bash" "/wd" "b9").1 =
      .error "No such file or directory (os error 2)" ∧
    FsOp.removed "/wd/.buildforge-b9.sh" ∉
      (run_script spawnFailEnv "echo hi" "bash" "/wd" "b9").2 := by
  constructor
  · rfl
  · decide

/-- C9 (amended): the temporary script file, named after the build id, is
written and then removed before any error propagates on the success,
non-zero-exit and wait-failure paths; but when the interpreter process
fails to spawn, the error propagates with the file still in place. -/
theorem C9_amended (env : ScriptEnv) (script shell workdir build_id : String) :
    (env.write = .ok () → (∀ e, env.run ≠ .spawnFail e) →
      (run_script env script shell workdir build_id).2 =
        [FsOp.wrote (workdir ++ "/.buildforge-" ++ build_id ++ ".sh"),
         FsOp.removed (workdir ++ "/.buildforge-" ++ build_id ++ ".sh")]) ∧
    (∀ e, env.write = .ok () → env.run = .spawnFail e →
      run_script env script shell workdir build_id =
        (.error e, [FsOp.wrote (workdir ++ "/.buildforge-" ++ build_id ++ ".sh")])) := by
  constructor
  · intro hw hr
    cases hrun : env.run with
    | spawnFail e => exact absurd hrun (hr e)
    | waitFail e => simp [run_script, hw, hrun]
    | finished success o e => cases success <;> simp [run_script, hw, hrun]
  · intro e hw hr
    simp [run_script, hw, hr]

/-- Witness for the amended C9: a failing script still gets its temp file
removed; a spawn failure leaks it. -/
theorem C9_witness :
    (run_script exitFailEnv "echo hi" "bash" "/wd" "b8").2 =
      [FsOp.wrote "/wd/.buildforge-b8.sh", FsOp.removed "/wd/.buildforge-b8.sh"] ∧
    run_script spawnFailEnv "echo hi" "bash" "/wd" "b9" =
      (.error "No such file or directory (os error 2)",
       [FsOp.wrote "/wd/.buildforge-b9.sh"]) := by
  constructor
  · exact (C9_amended exitFailEnv "echo hi" "bash" "/wd" "b8").1 rfl
      (by intro e h; simp [exitFailEnv] at h)
  · exact (C9_amended spawnFailEnv "echo hi" "bash" "/wd" "b9").2
      "No such file or directory (os error 2)" rfl rfl

/-- C3 (claim contradicted by the code): running the two-node acyclic build
to completion produces only the build result and the started-node trace —
`execute_build` constructs no `BuildProgress`, `BuildLog` or
`BuildComplete` message on any path (it has no writer handle; the computed
progress value is unused and the artifact list and release location are
dropped), so no progress or completion event is ever reported. -/
theorem C3_executor_emits_no_events :
    execute_build envAllOk "/wd" linePayload none = (.ok (), ["A", "B"]) := rfl

/-! ## Kahn-loop correctness: claims C1, C2 and C7 -/


theorem cnt_cons (e : BuildEdge) (rest : List BuildEdge) (S : List String) (t : String) :
    cnt (e :: rest) S t =
      cnt rest S t + (if e.target = t ∧ e.source ∈ S then 1 else 0) := by
  unfold cnt
  rw [List.filter_cons]
  by_cases h : e.target = t ∧ e.source ∈ S
  · simp [h]
  · simp [h]

theorem indeg0_cons (e : BuildEdge) (rest : List BuildEdge) (t : String) :
    indeg0 (e :: rest) t = indeg0 rest t + (if e.target = t then 1 else 0) := by
  unfold indeg0
  rw [List.filter_cons]
  by_cases h : e.target = t
  · simp [h]
  · simp [h]

theorem edgeCnt_cons (e : BuildEdge) (rest : List BuildEdge) (s t : String) :
    edgeCnt (e :: rest) s t =
      edgeCnt rest s t + (if e.source = s ∧ e.target = t then 1 else 0) := by
  unfold edgeCnt
  rw [List.filter_cons]
  by_cases h : e.source = s ∧ e.target = t
  · simp [h]
  · simp [h]

theorem adjOf_cons (e : BuildEdge) (rest : List BuildEdge) (s : String) :
    adjOf (e :: rest) s =
      if e.source = s then e.target :: adjOf rest s else adjOf rest s := by
  unfold adjOf
  rw [List.filter_cons]
  by_cases h : e.source = s
  · simp [h]
  · simp [h]

theorem cnt_nil (edges : List BuildEdge) (t : String) : cnt edges [] t = 0 := by
  induction edges with
  | nil => rfl
  | cons e rest ih => simp [cnt_cons, ih]

theorem cnt_le_indeg0 (edges : List BuildEdge) (S : List String) (t : String) :
    cnt edges S t ≤ indeg0 edges t := by
  induction edges with
  | nil => exact Nat.le_refl 0
  | cons e rest ih =>
    rw [cnt_cons, indeg0_cons]
    by_cases ht : e.target = t
    · by_cases hs : e.source ∈ S
      · simp [ht, hs]; omega
      · simp [ht, hs]; omega
    · simp [ht]; omega

theorem cnt_append_single (edges : List BuildEdge) (S : List String) (id t : String)
    (h : id ∉ S) :
    cnt edges (S ++ [id]) t = cnt edges S t + edgeCnt edges id t := by
  induction edges with
  | nil => rfl
  | cons e rest ih =>
    rw [cnt_cons, cnt_cons, edgeCnt_cons, ih]
    have hmem : e.source ∈ S ++ [id] ↔ e.source ∈ S ∨ e.source = id := by
      simp [List.mem_append]
    by_cases ht : e.target = t
    · by_cases hs : e.source ∈ S
      · have : e.source ≠ id := fun hc => h (hc ▸ hs)
        simp [ht, hs, this, hmem]; omega
      · by_cases hid : e.source = id
        · simp [ht, hs, hid, hmem, h]; omega
        · simp [ht, hs, hid, hmem]
    · simp [ht]

theorem cnt_eq_indeg0_sources (edges : List BuildEdge) (S : List String) (t : String)
    (h : cnt edges S t = indeg0 edges t) :
    ∀ e ∈ edges, e.target = t → e.source ∈ S := by
  induction edges with
  | nil => intro e he; simp at he
  | cons e rest ih =>
    intro f hf hft
    rw [cnt_cons, indeg0_cons] at h
    have hle := cnt_le_indeg0 rest S t
    by_cases ht : e.target = t
    · by_cases hs : e.source ∈ S
      · simp [ht, hs] at h
        rcases List.mem_cons.mp hf with rfl | hf'
        · exact hs
        · exact ih (by omega) f hf' hft
      · exfalso; simp [ht, hs] at h; omega
    · simp [ht] at h
      rcases List.mem_cons.mp hf with rfl | hf'
      · exact absurd hft ht
      · exact ih (by omega) f hf' hft

theorem adj_count (edges : List BuildEdge) (s t : String) :
    (adjOf edges s).count t = edgeCnt edges s t := by
  induction edges with
  | nil => rfl
  | cons e rest ih =>
    rw [adjOf_cons, edgeCnt_cons]
    by_cases hs : e.source = s
    · by_cases ht : e.target = t
      · simp [hs, ht, List.count_cons, ih]
      · simp [hs, ht, List.count_cons, ih]
    · simp [hs, ih]

theorem processTargets_spec (keys : List String) :
    ∀ (ts : List String) (deg : String → Nat),
      (∀ x, (processTargets keys deg ts).1 x =
        if x ∈ keys then deg x - ts.count x else deg x) ∧
      (∀ x, x ∈ (processTargets keys deg ts).2 ↔
        x ∈ keys ∧ 1 ≤ deg x ∧ deg x ≤ ts.count x) ∧
      (processTargets keys deg ts).2.Nodup := by
  intro ts
  induction ts with
  | nil =>
    intro deg
    refine ⟨fun x => ?_, fun x => ?_, List.nodup_nil⟩
    · simp [processTargets]
    · simp [processTargets]
      intros
      omega
  | cons t ts ih =>
    intro deg
    by_cases htk : t ∈ keys
    · obtain ⟨ihdeg, ihmem, ihnodup⟩ := ih (fun x => if x = t then deg t - 1 else deg x)
      have hres : processTargets keys deg (t :: ts) =
          (if deg t = 1 then
            ((processTargets keys (fun x => if x = t then deg t - 1 else deg x) ts).1,
             t :: (processTargets keys (fun x => if x = t then deg t - 1 else deg x) ts).2)
          else processTargets keys (fun x => if x = t then deg t - 1 else deg x) ts) := by
        simp [processTargets, htk]
      constructor
      · intro x
        have hx := ihdeg x
        by_cases hd : deg t = 1 <;>
          simp only [hres, hd, if_true, if_false, ite_true, ite_false] <;>
          by_cases hxt : x = t <;>
          by_cases hxk : x ∈ keys <;>
          simp_all [List.count_cons] <;> omega
      constructor
      · intro x
        have hx := ihmem x
        by_cases hd : deg t = 1 <;>
          by_cases hxt : x = t <;>
          simp only [hres, hd, if_true, if_false, ite_true, ite_false] <;>
          simp_all [List.count_cons] <;> omega
      · by_cases hd : deg t = 1
        · rw [hres, if_pos hd]
          refine List.nodup_cons.mpr ⟨?_, ihnodup⟩
          intro hmem
          have h2 := (ihmem t).mp hmem
          simp at h2
          omega
        · rw [hres, if_neg hd]
          exact ihnodup
    · obtain ⟨ihdeg, ihmem, ihnodup⟩ := ih deg
      have hres : processTargets keys deg (t :: ts) = processTargets keys deg ts := by
        simp [processTargets, htk]
      refine ⟨fun x => ?_, fun x => ?_, hres ▸ ihnodup⟩
      · rw [hres, ihdeg x]
        by_cases hxk : x ∈ keys
        · have hxt : ¬ x = t := fun hc => htk (hc ▸ hxk)
          simp [hxk, List.count_cons, hxt]
        · simp [hxk]
      · rw [hres, ihmem x]
        by_cases hxk : x ∈ keys
        · have hxt : ¬ x = t := fun hc => htk (hc ▸ hxk)
          simp [hxk, List.count_cons, hxt]
        · simp [hxk]

theorem kahnInv_step (nodes : List BuildNode) (edges : List BuildEdge)
    (deg : String → Nat) (id : String) (rest S : List String)
    (hInv : KahnInv nodes edges deg (id :: rest) S) :
    KahnInv nodes edges (processTargets (keysOf nodes) deg (adjOf edges id)).1
      (rest ++ (processTargets (keysOf nodes) deg (adjOf edges id)).2) (S ++ [id]) := by
  obtain ⟨h1, h2, h3, h4, h5⟩ := hInv
  obtain ⟨Pdeg, Pmem, Pnodup⟩ :=
    processTargets_spec (keysOf nodes) (adjOf edges id) deg
  have hidS : id ∉ S := by
    rw [List.nodup_append] at h1
    exact fun hc => h1.2.2 hc (List.mem_cons_self id rest)
  have hidK : id ∈ keysOf nodes := h2 id (by simp)
  have hid4 : indeg0 edges id = cnt edges S id := h4 id (by simp)
  have hB : ∀ x, cnt edges (S ++ [id]) x = cnt edges S x + edgeCnt edges id x :=
    fun x => cnt_append_single edges S id x hidS
  -- members of the old state have degree 0
  have hdeg0 : ∀ x ∈ S ++ id :: rest, deg x = 0 := by
    intro x hx
    rw [h3 x (h2 x hx), h4 x hx]
    omega
  -- members of the old state keep all in-edges satisfied after emitting id
  have hC : ∀ x ∈ S ++ id :: rest, indeg0 edges x = cnt edges (S ++ [id]) x := by
    intro x hx
    have := h4 x hx
    have := hB x
    have := cnt_le_indeg0 edges (S ++ [id]) x
    omega
  -- enqueued ids are fresh keys
  have hEnqFresh : ∀ x ∈ (processTargets (keysOf nodes) deg (adjOf edges id)).2,
      x ∈ keysOf nodes ∧ x ∉ S ++ id :: rest := by
    intro x hx
    have hp := (Pmem x).mp hx
    refine ⟨hp.1, fun hc => ?_⟩
    have := hdeg0 x hc
    omega
  refine ⟨?_, ?_, ?_, ?_, ?_⟩
  · -- Nodup
    have hre : (S ++ [id]) ++ (rest ++ (processTargets (keysOf nodes) deg (adjOf edges id)).2)
        = ((S ++ id :: rest) ++ (processTargets (keysOf nodes) deg (adjOf edges id)).2) := by
      simp
    rw [hre, List.nodup_append]
    refine ⟨h1, Pnodup, fun x hx hx' => ?_⟩
    exact (hEnqFresh x hx').2 hx
  · -- membership in keys
    intro x hx
    rcases List.mem_append.mp hx with hx' | hx'
    · rcases List.mem_append.mp hx' with hS | hid'
      · exact h2 x (List.mem_append_left _ hS)
      · have : x = id := by simpa using hid'
        exact this ▸ hidK
    · rcases List.mem_append.mp hx' with hrest | henq
      · exact h2 x (by simp [hrest])
      · exact (hEnqFresh x henq).1
  · -- degree formula
    intro x hxk
    rw [Pdeg x, if_pos hxk, h3 x hxk, hB x, adj_count]
    omega
  · -- emitted/queued ids have all in-edges satisfied
    intro x hx
    rcases List.mem_append.mp hx with hx' | hx'
    · rcases List.mem_append.mp hx' with hS | hid'
      · exact hC x (List.mem_append_left _ hS)
      · have : x = id := by simpa using hid'
        exact hC x (by simp [this])
    · rcases List.mem_append.mp hx' with hrest | henq
      · exact hC x (by simp [hrest])
      · have hp := (Pmem x).mp henq
        rw [adj_count] at hp
        have h3x := h3 x hp.1
        have := cnt_le_indeg0 edges S x
        have := cnt_le_indeg0 edges (S ++ [id]) x
        have := hB x
        omega
  · -- topological consistency of the emitted prefix
    intro e he hte
    rcases List.mem_append.mp hte with hte' | hte'
    · obtain ⟨hsrc, hsub⟩ := h5 e he hte'
      exact ⟨List.mem_append_left _ hsrc,
        hsub.trans (List.sublist_append_left S [id])⟩
    · have htid : e.target = id := by simpa using hte'
      have hsrc : e.source ∈ S :=
        cnt_eq_indeg0_sources edges S id hid4.symm e he htid
      refine ⟨List.mem_append_left _ hsrc, ?_⟩
      rw [htid]
      have hsub : List.Sublist ([e.source] ++ [id]) (S ++ [id]) :=
        List.Sublist.append (List.singleton_sublist.mpr hsrc) (List.Sublist.refl [id])
      simpa using hsub

theorem kahnLoop_spec (nodes : List BuildNode) (edges : List BuildEdge) :
    ∀ (fuel : Nat) (deg : String → Nat) (Q S : List String),
      KahnInv nodes edges deg Q S →
      (∃ T, kahnLoop (keysOf nodes) (adjOf edges) fuel deg Q S = S ++ T) ∧
      (kahnLoop (keysOf nodes) (adjOf edges) fuel deg Q S).Nodup ∧
      (∀ x ∈ kahnLoop (keysOf nodes) (adjOf edges) fuel deg Q S, x ∈ keysOf nodes) ∧
      (∀ e ∈ edges, e.target ∈ kahnLoop (keysOf nodes) (adjOf edges) fuel deg Q S →
        e.source ∈ kahnLoop (keysOf nodes) (adjOf edges) fuel deg Q S ∧
        [e.source, e.target].Sublist (kahnLoop (keysOf nodes) (adjOf edges) fuel deg Q S)) := by
  intro fuel
  induction fuel with
  | zero =>
    intro deg Q S hInv
    obtain ⟨h1, h2, _, _, h5⟩ := hInv
    refine ⟨⟨[], by simp [kahnLoop]⟩, ?_, ?_, ?_⟩
    · simpa [kahnLoop] using (List.nodup_append.mp h1).1
    · intro x hx
      exact h2 x (List.mem_append_left _ (by simpa [kahnLoop] using hx))
    · intro e he hte
      simp only [kahnLoop] at hte ⊢
      exact h5 e he hte
  | succ fuel ih =>
    intro deg Q S hInv
    match Q with
    | [] =>
      obtain ⟨h1, h2, _, _, h5⟩ := hInv
      refine ⟨⟨[], by simp [kahnLoop]⟩, ?_, ?_, ?_⟩
      · simpa [kahnLoop] using (List.nodup_append.mp h1).1
      · intro x hx
        exact h2 x (List.mem_append_left _ (by simpa [kahnLoop] using hx))
      · intro e he hte
        simp only [kahnLoop] at hte ⊢
        exact h5 e he hte
    | id :: rest =>
      have hInv' := kahnInv_step nodes edges deg id rest S hInv
      have hred : kahnLoop (keysOf nodes) (adjOf edges) (fuel + 1) deg (id :: rest) S =
          kahnLoop (keysOf nodes) (adjOf edges) fuel
            (processTargets (keysOf nodes) deg (adjOf edges id)).1
            (rest ++ (processTargets (keysOf nodes) deg (adjOf edges id)).2)
            (S ++ [id]) := rfl
      obtain ⟨⟨T, hT⟩, hnd, hkeys, hord⟩ := ih _ _ _ hInv'
      rw [hred]
      refine ⟨⟨id :: T, by rw [hT]; simp⟩, hnd, hkeys, hord⟩

theorem kahnInv_init (nodes : List BuildNode) (edges : List BuildEdge) :
    KahnInv nodes edges (indeg0 edges)
      ((keysOf nodes).filter (fun k => decide (indeg0 edges k = 0))) [] := by
  refine ⟨?_, ?_, ?_, ?_, ?_⟩
  · simpa using (List.nodup_dedup (nodeIds nodes)).filter _
  · intro x hx
    simp at hx
    exact hx.1
  · intro x _
    rw [cnt_nil]
    omega
  · intro x hx
    simp at hx
    rw [cnt_nil, hx.2]
  · intro e _ hte
    simp at hte

theorem kahnSortedIds_spec (nodes : List BuildNode) (edges : List BuildEdge) :
    (kahnSortedIds nodes edges).Nodup ∧
    (∀ x ∈ kahnSortedIds nodes edges, x ∈ keysOf nodes) ∧
    (∀ e ∈ edges, e.target ∈ kahnSortedIds nodes edges →
      e.source ∈ kahnSortedIds nodes edges ∧
      [e.source, e.target].Sublist (kahnSortedIds nodes edges)) := by
  have h := kahnLoop_spec nodes edges (nodes.length + edges.length + 1) (indeg0 edges)
    ((keysOf nodes).filter (fun k => decide (indeg0 edges k = 0))) []
    (kahnInv_init nodes edges)
  exact ⟨h.2.1, h.2.2.1, h.2.2.2⟩

theorem kahn_ok_analysis (nodes : List BuildNode) (edges : List BuildEdge)
    (h : (kahnSortedIds nodes edges).length = nodes.length) :
    (nodeIds nodes).Nodup ∧ (kahnSortedIds nodes edges).Perm (nodeIds nodes) := by
  obtain ⟨hnd, hkeys, _⟩ := kahnSortedIds_spec nodes edges
  have hsub : List.Subperm (kahnSortedIds nodes edges) (keysOf nodes) :=
    List.Nodup.subperm hnd hkeys
  have hlen1 : (kahnSortedIds nodes edges).length ≤ (keysOf nodes).length :=
    hsub.length_le
  have hlen2 : (keysOf nodes).length ≤ (nodeIds nodes).length :=
    (List.dedup_sublist (nodeIds nodes)).length_le
  have hlen3 : (nodeIds nodes).length = nodes.length := by simp [nodeIds]
  have hk : keysOf nodes = (nodeIds nodes).dedup := rfl
  have hkeyseq : keysOf nodes = nodeIds nodes := by
    rw [hk]
    exact (List.dedup_sublist (nodeIds nodes)).eq_of_length (by rw [← hk]; omega)
  have hnodup : (nodeIds nodes).Nodup := by
    rw [← List.dedup_eq_self]
    exact hkeyseq
  have hperm : (kahnSortedIds nodes edges).Perm (keysOf nodes) :=
    hsub.perm_of_length_le (by omega)
  exact ⟨hnodup, hkeyseq ▸ hperm⟩

theorem find?_id_of_mem (nodes : List BuildNode) (x : String)
    (hx : x ∈ nodeIds nodes) :
    ∃ n, nodes.reverse.find? (fun n => decide (n.id = x)) = some n ∧ n.id = x := by
  obtain ⟨n, hn, hnid⟩ := List.mem_map.mp hx
  have hsome : (nodes.reverse.find? (fun n => decide (n.id = x))).isSome := by
    rw [List.find?_isSome]
    exact ⟨n, List.mem_reverse.mpr hn, by simp [hnid]⟩
  obtain ⟨m, hm⟩ := Option.isSome_iff_exists.mp hsome
  refine ⟨m, hm, ?_⟩
  have := List.find?_some hm
  simpa using this

theorem map_id_filterMap (nodes : List BuildNode) :
    ∀ (R : List String), (∀ x ∈ R, x ∈ nodeIds nodes) →
      ((R.filterMap (fun i => nodes.reverse.find? (fun n => decide (n.id = i)))).map
        (fun n => n.id)) = R := by
  intro R
  induction R with
  | nil => intro _; rfl
  | cons x R' ih =>
    intro hmem
    obtain ⟨n, hn, hnid⟩ := find?_id_of_mem nodes x (hmem x (by simp))
    rw [List.filterMap_cons, hn, List.map_cons, hnid,
      ih (fun y hy => hmem y (by simp [hy]))]

theorem find?_self_of_nodup (nodes : List BuildNode)
    (hnd : (nodeIds nodes).Nodup) :
    ∀ n ∈ nodes, nodes.reverse.find? (fun m => decide (m.id = n.id)) = some n := by
  intro n hn
  obtain ⟨m, hm, hmid⟩ := find?_id_of_mem nodes n.id (List.mem_map_of_mem _ hn)
  have hminl : m ∈ nodes := List.mem_reverse.mp (List.mem_of_find?_eq_some hm)
  have : m = n := by
    have hinj := List.inj_on_of_nodup_map hnd
    exact hinj hminl hn hmid
  rw [hm, this]

theorem filterMap_of_pointwise (L : String → Option BuildNode) :
    ∀ (l : List BuildNode), (∀ n ∈ l, L n.id = some n) →
      (l.map (fun n => n.id)).filterMap L = l := by
  intro l
  induction l with
  | nil => intro _; rfl
  | cons n rest ih =>
    intro hpt
    rw [List.map_cons, List.filterMap_cons, hpt n (by simp),
      ih (fun m hm => hpt m (by simp [hm]))]

theorem filterMap_nodeIds (nodes : List BuildNode)
    (hnd : (nodeIds nodes).Nodup) :
    (nodeIds nodes).filterMap
      (fun i => nodes.reverse.find? (fun n => decide (n.id = i))) = nodes :=
  filterMap_of_pointwise _ nodes (fun n hn => find?_self_of_nodup nodes hnd n hn)

theorem topological_sort_eq (nodes : List BuildNode) (edges : List BuildEdge) :
    topological_sort nodes edges =
      if (kahnSortedIds nodes edges).length = nodes.length then
        .ok ((kahnSortedIds nodes edges).filterMap
          (fun i => nodes.reverse.find? (fun n => decide (n.id = i))))
      else .error "Circular dependency detected in build nodes" := rfl

theorem pair_sublist_indexOf_lt {a b : String} :
    ∀ (l : List String), l.Nodup → [a, b].Sublist l → l.indexOf a < l.indexOf b := by
  intro l
  induction l with
  | nil => intro _ hs; cases hs
  | cons x l' ih =>
    intro hnd hs
    have hx : x ∉ l' := (List.nodup_cons.mp hnd).1
    cases hs with
    | cons _ h' =>
      have ha : a ∈ l' := (List.cons_subset.mp h'.subset).1
      have hb : b ∈ l' := by
        have := h'.subset
        exact this (by simp)
      have hax : a ≠ x := fun hc => hx (hc ▸ ha)
      have hbx : b ≠ x := fun hc => hx (hc ▸ hb)
      rw [List.indexOf_cons_ne _ (fun hc => hax hc.symm),
        List.indexOf_cons_ne _ (fun hc => hbx hc.symm)]
      exact Nat.succ_lt_succ (ih (List.nodup_cons.mp hnd).2 h')
    | cons₂ _ h' =>
      have hb : b ∈ l' := (List.cons_subset.mp h'.subset).1
      have hbx : b ≠ a := fun hc => hx (hc ▸ hb)
      rw [List.indexOf_cons_self, List.indexOf_cons_ne _ (fun hc => hbx hc.symm)]
      exact Nat.succ_pos _

/-- C1: whenever `topological_sort` returns an order (as it does for every
acyclic graph it accepts), that order is a valid topological order: for
every edge whose two endpoints are node ids, the source node strictly
precedes the target node in the returned order, and the returned order is
a permutation of the input nodes — each input node appears exactly once. -/
theorem C1_topological_sort_valid (nodes : List BuildNode) (edges : List BuildEdge)
    (order : List BuildNode)
    (h : topological_sort nodes edges = .ok order) :
    (∀ e ∈ edges, e.source ∈ nodeIds nodes → e.target ∈ nodeIds nodes →
      [e.source, e.target].Sublist (order.map (fun n => n.id)) ∧
      (order.map (fun n => n.id)).indexOf e.source <
        (order.map (fun n => n.id)).indexOf e.target) ∧
    (order.map (fun n => n.id)).Nodup ∧
    order.Perm nodes := by
  rw [topological_sort_eq] at h
  by_cases hlen : (kahnSortedIds nodes edges).length = nodes.length
  · rw [if_pos hlen] at h
    have horder : order = (kahnSortedIds nodes edges).filterMap
        (fun i => nodes.reverse.find? (fun n => decide (n.id = i))) :=
      (Except.ok.injEq _ _ ▸ h).symm
    obtain ⟨hnodupIds, hperm⟩ := kahn_ok_analysis nodes edges hlen
    obtain ⟨hRnd, hRkeys, hRord⟩ := kahnSortedIds_spec nodes edges
    have hRmem : ∀ x ∈ kahnSortedIds nodes edges, x ∈ nodeIds nodes := by
      intro x hxr
      exact hperm.mem_iff.mp hxr
    have hids : order.map (fun n => n.id) = kahnSortedIds nodes edges := by
      rw [horder]
      exact map_id_filterMap nodes _ hRmem
    refine ⟨?_, ?_, ?_⟩
    · intro e he hsrc htgt
      have htR : e.target ∈ kahnSortedIds nodes edges := hperm.mem_iff.mpr htgt
      obtain ⟨hsR, hsub⟩ := hRord e he htR
      rw [hids]
      exact ⟨hsub, pair_sublist_indexOf_lt _ hRnd hsub⟩
    · rw [hids]; exact hRnd
    · rw [horder]
      have h2 : List.Perm
          ((kahnSortedIds nodes edges).filterMap
            (fun i => nodes.reverse.find? (fun n => decide (n.id = i))))
          ((nodeIds nodes).filterMap
            (fun i => nodes.reverse.find? (fun n => decide (n.id = i)))) :=
        hperm.filterMap _
      rw [filterMap_nodeIds nodes hnodupIds] at h2
      exact h2
  · rw [if_neg hlen] at h
    cases h

theorem chain_pred {R : String → String → Prop} :
    ∀ (p : List String) (v : String), List.Chain R v p → ∀ w ∈ p, ∃ u ∈ v :: p, R u w := by
  intro p
  induction p with
  | nil => intro v _ w hw; simp at hw
  | cons b p' ih =>
    intro v hch w hw
    rcases List.chain_cons.mp hch with ⟨hvb, hch'⟩
    rcases List.mem_cons.mp hw with rfl | hw'
    · exact ⟨v, by simp, hvb⟩
    · obtain ⟨u, hu, hR⟩ := ih b hch' w hw'
      exact ⟨u, by simp [List.mem_cons.mp hu |>.elim (fun h => Or.inr (Or.inl h))
        (fun h => Or.inr (Or.inr h))], hR⟩

theorem cycle_pred (nodes : List BuildNode) (edges : List BuildEdge)
    (h : HasCycle nodes edges) :
    ∃ c : List String, c ≠ [] ∧ (∀ x ∈ c, x ∈ nodeIds nodes) ∧
      ∀ w ∈ c, ∃ u ∈ c, isEdge edges u w := by
  obtain ⟨v, p, hmem, hchain, hclose⟩ := h
  refine ⟨v :: p, List.cons_ne_nil v p, hmem, ?_⟩
  intro w hw
  rcases List.mem_cons.mp hw with rfl | hw'
  · exact ⟨(w :: p).getLast (List.cons_ne_nil w p),
      List.getLast_mem (List.cons_ne_nil w p), hclose⟩
  · exact chain_pred p v hchain w hw'

theorem exists_min_on (f : String → Nat) :
    ∀ (s : List String), s ≠ [] → ∃ v ∈ s, ∀ u ∈ s, f v ≤ f u := by
  intro s
  induction s with
  | nil => intro h; exact absurd rfl h
  | cons x rest ih =>
    intro _
    match rest, ih with
    | [], _ => exact ⟨x, by simp, fun u hu => by simp at hu; simp [hu]⟩
    | y :: rest', ih =>
      obtain ⟨m, hm, hmin⟩ := ih (List.cons_ne_nil y rest')
      by_cases hc : f x ≤ f m
      · refine ⟨x, by simp, fun u hu => ?_⟩
        rcases List.mem_cons.mp hu with rfl | hu'
        · exact Nat.le_refl _
        · exact Nat.le_trans hc (hmin u hu')
      · refine ⟨m, by simp [hm], fun u hu => ?_⟩
        rcases List.mem_cons.mp hu with rfl | hu'
        · omega
        · exact hmin u hu'

theorem kahn_cycle_error (nodes : List BuildNode) (edges : List BuildEdge)
    (h : HasCycle nodes edges) :
    (kahnSortedIds nodes edges).length ≠ nodes.length := by
  intro hlen
  obtain ⟨hnodup, hperm⟩ := kahn_ok_analysis nodes edges hlen
  obtain ⟨hRnd, _, hRord⟩ := kahnSortedIds_spec nodes edges
  obtain ⟨c, hcne, hcmem, hcpred⟩ := cycle_pred nodes edges h
  obtain ⟨v, hv, hvmin⟩ := exists_min_on ((kahnSortedIds nodes edges).indexOf) c hcne
  obtain ⟨u, hu, hedge⟩ := hcpred v hv
  obtain ⟨e, he, hes, het⟩ := hedge
  have hvR : v ∈ kahnSortedIds nodes edges := hperm.mem_iff.mpr (hcmem v hv)
  have hord := hRord e he (by rw [het]; exact hvR)
  have hlt := pair_sublist_indexOf_lt _ hRnd hord.2
  rw [hes, het] at hlt
  have := hvmin u hu
  omega

/-- C2: a build graph containing a cycle among its nodes makes
`topological_sort` fail with the circular-dependency error, and
`execute_build` propagates that error before its node loop starts: zero
nodes are executed. -/
theorem C2_cycle_rejected (env : ExecEnv) (workdir : String) (token : Option String)
    (payload : BuildStartPayload) (h : HasCycle payload.nodes payload.edges) :
    topological_sort payload.nodes payload.edges =
      .error "Circular dependency detected in build nodes" ∧
    execute_build env workdir payload token =
      (.error "Circular dependency detected in build nodes", []) := by
  have herr : topological_sort payload.nodes payload.edges =
      .error "Circular dependency detected in build nodes" := by
    rw [topological_sort_eq, if_neg (kahn_cycle_error _ _ h)]
  exact ⟨herr, by simp [execute_build, herr]⟩

/-- Witness for C2 at the concrete cyclic graph `A → B → A`. -/
theorem C2_witness :
    topological_sort cyclePayload.nodes cyclePayload.edges =
      .error "Circular dependency detected in build nodes" ∧
    execute_build envAllOk "/wd" cyclePayload none =
      (.error "Circular dependency detected in build nodes", []) := by
  refine C2_cycle_rejected envAllOk "/wd" none cyclePayload ?_
  refine ⟨"A", ["B"], ?_, ?_, ?_⟩
  · intro x hx
    rcases List.mem_cons.mp hx with rfl | hx'
    · exact by decide
    · have : x = "B" := by simpa using hx'
      rw [this]; exact by decide
  · exact List.Chain.cons ⟨edgeAB, by simp [cyclePayload], rfl, rfl⟩ List.Chain.nil
  · exact ⟨edgeBA, by simp [cyclePayload], rfl, rfl⟩

/-- Witness for C1 at the concrete two-node graph `A → B`. -/
theorem C1_witness :
    ([edgeAB.source, edgeAB.target].Sublist ([nodeA, nodeB].map (fun n => n.id)) ∧
      ([nodeA, nodeB].map (fun n => n.id)).indexOf edgeAB.source <
        ([nodeA, nodeB].map (fun n => n.id)).indexOf edgeAB.target) ∧
    ([nodeA, nodeB].map (fun n => n.id)).Nodup ∧
    List.Perm ([nodeA, nodeB] : List BuildNode) [nodeA, nodeB] := by
  have h := C1_topological_sort_valid [nodeA, nodeB] [edgeAB] [nodeA, nodeB] rfl
  exact ⟨h.1 edgeAB (by simp) (by decide) (by decide), h.2.1, h.2.2⟩

theorem dangling_source_error (nodes : List BuildNode) (edges : List BuildEdge)
    (h : ∃ e ∈ edges, e.source ∉ nodeIds nodes ∧ e.target ∈ nodeIds nodes) :
    topological_sort nodes edges =
      .error "Circular dependency detected in build nodes" := by
  rw [topological_sort_eq]
  rw [if_neg ?hne]
  case hne =>
    intro hlen
    obtain ⟨e, he, hsrc, htgt⟩ := h
    obtain ⟨hnodup, hperm⟩ := kahn_ok_analysis nodes edges hlen
    obtain ⟨_, hRkeys, hRord⟩ := kahnSortedIds_spec nodes edges
    have htR : e.target ∈ kahnSortedIds nodes edges := hperm.mem_iff.mpr htgt
    have hsR := (hRord e he htR).1
    have : e.source ∈ keysOf nodes := hRkeys _ hsR
    exact hsrc (List.mem_dedup.mp this)

theorem processTargets_congr_deg (keys : List String) :
    ∀ (ts : List String) (deg₁ deg₂ : String → Nat),
      (∀ x ∈ keys, deg₁ x = deg₂ x) →
      (∀ x ∈ keys, (processTargets keys deg₁ ts).1 x = (processTargets keys deg₂ ts).1 x) ∧
      (processTargets keys deg₁ ts).2 = (processTargets keys deg₂ ts).2 := by
  intro ts
  induction ts with
  | nil => intro deg₁ deg₂ hagree; exact ⟨fun x hx => hagree x hx, rfl⟩
  | cons t ts ih =>
    intro deg₁ deg₂ hagree
    by_cases htk : t ∈ keys
    · have hdt : deg₁ t = deg₂ t := hagree t htk
      have hagree' : ∀ x ∈ keys,
          (fun x => if x = t then deg₂ t - 1 else deg₁ x) x =
          (fun x => if x = t then deg₂ t - 1 else deg₂ x) x := by
        intro x hx
        by_cases hxt : x = t
        · simp [hxt]
        · simp [hxt, hagree x hx]
      obtain ⟨ihdeg, ihenq⟩ := ih _ _ hagree'
      constructor
      · intro x hx
        simp only [processTargets, htk, if_true, hdt]
        by_cases hd : deg₂ t = 1
        · rw [if_pos hd, if_pos hd]
          exact ihdeg x hx
        · rw [if_neg hd, if_neg hd]
          exact ihdeg x hx
      · simp only [processTargets, htk, if_true, hdt]
        by_cases hd : deg₂ t = 1
        · rw [if_pos hd, if_pos hd]
          simp only [ihenq]
        · rw [if_neg hd, if_neg hd]
          exact ihenq
    · obtain ⟨ihdeg, ihenq⟩ := ih _ _ hagree
      constructor
      · intro x hx
        simp only [processTargets, htk, if_false]
        exact ihdeg x hx
      · simp only [processTargets, htk, if_false]
        exact ihenq

theorem processTargets_cons_not_mem (keys : List String) (deg : String → Nat)
    (t : String) (ts : List String) (h : t ∉ keys) :
    processTargets keys deg (t :: ts) = processTargets keys deg ts := by
  simp [processTargets, h]

theorem processTargets_cons_mem (keys : List String) (deg : String → Nat)
    (t : String) (ts : List String) (h : t ∈ keys) :
    processTargets keys deg (t :: ts) =
      (if deg t = 1 then
        ((processTargets keys (fun x => if x = t then deg t - 1 else deg x) ts).1,
         t :: (processTargets keys (fun x => if x = t then deg t - 1 else deg x) ts).2)
      else processTargets keys (fun x => if x = t then deg t - 1 else deg x) ts) := by
  simp [processTargets, h]

theorem processTargets_filter_keys (nodes : List BuildNode) :
    ∀ (ts : List String) (deg : String → Nat),
      processTargets (keysOf nodes) deg
        (ts.filter (fun t => decide (t ∈ nodeIds nodes))) =
      processTargets (keysOf nodes) deg ts := by
  intro ts
  induction ts with
  | nil => intro _; rfl
  | cons t ts ih =>
    intro deg
    rw [List.filter_cons]
    by_cases ht : t ∈ nodeIds nodes
    · have htk : t ∈ keysOf nodes := List.mem_dedup.mpr ht
      rw [if_pos (by simp [ht])]
      rw [processTargets_cons_mem _ _ _ _ htk, processTargets_cons_mem _ _ _ _ htk, ih]
    · have htk : t ∉ keysOf nodes := fun hc => ht (List.mem_dedup.mp hc)
      rw [if_neg (by simp [ht])]
      rw [processTargets_cons_not_mem _ _ _ _ htk, ih]

theorem adjOf_filter_target (nodes : List BuildNode) (edges : List BuildEdge) (s : String) :
    adjOf (edges.filter (fun e => decide (e.target ∈ nodeIds nodes))) s =
      (adjOf edges s).filter (fun t => decide (t ∈ nodeIds nodes)) := by
  induction edges with
  | nil => rfl
  | cons e rest ih =>
    rw [List.filter_cons]
    by_cases ht : e.target ∈ nodeIds nodes
    · rw [if_pos (by simp [ht])]
      rw [adjOf_cons, adjOf_cons]
      by_cases hs : e.source = s
      · rw [if_pos hs, if_pos hs, List.filter_cons, if_pos (by simp [ht]), ih]
      · rw [if_neg hs, if_neg hs, ih]
    · rw [if_neg (by simp [ht])]
      rw [adjOf_cons]
      by_cases hs : e.source = s
      · rw [if_pos hs, ih, List.filter_cons, if_neg (by simp [ht])]
      · rw [if_neg hs, ih]

theorem indeg0_filter_target (nodes : List BuildNode) (edges : List BuildEdge)
    (x : String) (hx : x ∈ nodeIds nodes) :
    indeg0 (edges.filter (fun e => decide (e.target ∈ nodeIds nodes))) x =
      indeg0 edges x := by
  induction edges with
  | nil => rfl
  | cons e rest ih =>
    rw [List.filter_cons]
    by_cases ht : e.target ∈ nodeIds nodes
    · rw [if_pos (by simp [ht]), indeg0_cons, indeg0_cons, ih]
    · have hxt : ¬ e.target = x := fun hc => ht (hc ▸ hx)
      rw [if_neg (by simp [ht]), indeg0_cons, ih, if_neg hxt]
      omega

theorem kahnLoop_filter_congr (nodes : List BuildNode) (edges : List BuildEdge) :
    ∀ (fuel : Nat) (Q S : List String) (deg₁ deg₂ : String → Nat),
      (∀ x ∈ keysOf nodes, deg₁ x = deg₂ x) →
      kahnLoop (keysOf nodes)
        (adjOf (edges.filter (fun e => decide (e.target ∈ nodeIds nodes))))
        fuel deg₁ Q S =
      kahnLoop (keysOf nodes) (adjOf edges) fuel deg₂ Q S := by
  intro fuel
  induction fuel with
  | zero => intro Q S deg₁ deg₂ _; rfl
  | succ fuel ih =>
    intro Q S deg₁ deg₂ hagree
    match Q with
    | [] => rfl
    | id :: rest =>
      have h1 : processTargets (keysOf nodes) deg₁
          (adjOf (edges.filter (fun e => decide (e.target ∈ nodeIds nodes))) id) =
          processTargets (keysOf nodes) deg₁ (adjOf edges id) := by
        rw [adjOf_filter_target, processTargets_filter_keys]
      obtain ⟨hdeg, henq⟩ := processTargets_congr_deg (keysOf nodes) (adjOf edges id)
        deg₁ deg₂ hagree
      show kahnLoop (keysOf nodes) _ fuel
          (processTargets (keysOf nodes) deg₁
            (adjOf (edges.filter (fun e => decide (e.target ∈ nodeIds nodes))) id)).1
          (rest ++ (processTargets (keysOf nodes) deg₁
            (adjOf (edges.filter (fun e => decide (e.target ∈ nodeIds nodes))) id)).2)
          (S ++ [id]) = _
      rw [h1, henq]
      exact ih _ _ _ _ hdeg

theorem kahnLoop_fuel_congr (nodes : List BuildNode) (edges : List BuildEdge) :
    ∀ (f₁ f₂ : Nat) (deg : String → Nat) (Q S : List String),
      KahnInv nodes edges deg Q S →
      (keysOf nodes).length - S.length < f₁ →
      (keysOf nodes).length - S.length < f₂ →
      kahnLoop (keysOf nodes) (adjOf edges) f₁ deg Q S =
        kahnLoop (keysOf nodes) (adjOf edges) f₂ deg Q S := by
  intro f₁
  induction f₁ with
  | zero => intro f₂ deg Q S _ h1 _; omega
  | succ f₁ ih =>
    intro f₂ deg Q S hInv h1 h2
    match f₂, Q with
    | 0, _ => omega
    | f₂ + 1, [] => rfl
    | f₂ + 1, id :: rest =>
      have hlt : S.length < (keysOf nodes).length := by
        have hsub : List.Subperm (S ++ id :: rest) (keysOf nodes) :=
          List.Nodup.subperm hInv.1 hInv.2.1
        have := hsub.length_le
        simp at this
        omega
      have hInv' := kahnInv_step nodes edges deg id rest S hInv
      have hred : ∀ f, kahnLoop (keysOf nodes) (adjOf edges) (f + 1) deg (id :: rest) S =
          kahnLoop (keysOf nodes) (adjOf edges) f
            (processTargets (keysOf nodes) deg (adjOf edges id)).1
            (rest ++ (processTargets (keysOf nodes) deg (adjOf edges id)).2)
            (S ++ [id]) := fun f => rfl
      rw [hred f₁, hred f₂]
      apply ih f₂ _ _ _ hInv' <;> simp <;> omega

theorem topological_sort_drop_dangling_targets (nodes : List BuildNode)
    (edges : List BuildEdge) :
    topological_sort nodes edges =
      topological_sort nodes
        (edges.filter (fun e => decide (e.target ∈ nodeIds nodes))) := by
  have hkeylen : (keysOf nodes).length ≤ nodes.length := by
    have := (List.dedup_sublist (nodeIds nodes)).length_le
    simpa [nodeIds] using this
  have hqcongr : (keysOf nodes).filter
        (fun k => decide (indeg0 (edges.filter
          (fun e => decide (e.target ∈ nodeIds nodes))) k = 0)) =
      (keysOf nodes).filter (fun k => decide (indeg0 edges k = 0)) := by
    apply List.filter_congr
    intro x hx
    rw [indeg0_filter_target nodes edges x (List.mem_dedup.mp hx)]
  have hsorted : kahnSortedIds nodes
        (edges.filter (fun e => decide (e.target ∈ nodeIds nodes))) =
      kahnSortedIds nodes edges := by
    unfold kahnSortedIds
    rw [hqcongr]
    have hstep1 : kahnLoop (keysOf nodes)
        (adjOf (edges.filter (fun e => decide (e.target ∈ nodeIds nodes))))
        (nodes.length + (edges.filter (fun e => decide (e.target ∈ nodeIds nodes))).length + 1)
        (indeg0 (edges.filter (fun e => decide (e.target ∈ nodeIds nodes))))
        ((keysOf nodes).filter (fun k => decide (indeg0 edges k = 0))) [] =
      kahnLoop (keysOf nodes) (adjOf edges)
        (nodes.length + (edges.filter (fun e => decide (e.target ∈ nodeIds nodes))).length + 1)
        (indeg0 edges)
        ((keysOf nodes).filter (fun k => decide (indeg0 edges k = 0))) [] := by
      apply kahnLoop_filter_congr
      intro x hx
      exact indeg0_filter_target nodes edges x (List.mem_dedup.mp hx)
    rw [hstep1]
    apply kahnLoop_fuel_congr nodes edges _ _ _ _ _ (kahnInv_init nodes edges) <;> simp <;> omega
  rw [topological_sort_eq, topological_sort_eq, hsorted]

/-- Counterexample to C7 as stated: the graph with single node `A` and the
edge `A → X`, whose target id `X` resolves to no node, is not rejected —
`topological_sort` succeeds and the executor runs the build; the dangling
target reference is silently ignored. -/
theorem C7_counterexample_check :
    topological_sort [nodeA] [edgeAX] = .ok [nodeA] ∧
    execute_build envAllOk "/wd" danglingPayload none = (.ok (), ["A"]) :=
  ⟨rfl, rfl⟩

/-- C7 (amended): an edge whose source id resolves to no node while its
target id does resolve makes the build fail (with the circular-dependency
message — the target's in-degree is counted but can never be satisfied);
edges whose target id resolves to no node are silently ignored: dropping
them never changes the result of `topological_sort`. -/
theorem C7_amended_dangling (nodes : List BuildNode) (edges : List BuildEdge) :
    ((∃ e ∈ edges, e.source ∉ nodeIds nodes ∧ e.target ∈ nodeIds nodes) →
      topological_sort nodes edges =
        .error "Circular dependency detected in build nodes") ∧
    topological_sort nodes edges =
      topological_sort nodes
        (edges.filter (fun e => decide (e.target ∈ nodeIds nodes))) :=
  ⟨dangling_source_error nodes edges, topological_sort_drop_dangling_targets nodes edges⟩

/-- Witness for the amended C7: the dangling-source edge `X → A` is
rejected, and dropping the dangling-target edge `A → X` changes nothing. -/
theorem C7_witness :
    topological_sort [nodeA] [edgeXA] =
      .error "Circular dependency detected in build nodes" ∧
    topological_sort [nodeA] [edgeAX] =
      topological_sort [nodeA]
        ([edgeAX].filter (fun e => decide (e.target ∈ nodeIds [nodeA]))) := by
  constructor
  · exact (C7_amended_dangling [nodeA] [edgeXA]).1 ⟨edgeXA, by simp, by decide, by decide⟩
  · exact (C7_amended_dangling [nodeA] [edgeAX]).2
